import Mathlib

/-!
Verification of the kymatio 1-D (joint time-frequency) scattering core.

This file shallowly embeds, over Lean types, the parts of the repository that
the verified properties concern:

* `kymatio/scattering1d/backend/tensorflow_backend.py`
  (`TensorFlowBackend1D.subsample_fourier`),
* `kymatio/scattering1d/filter_bank.py`
  (`periodize_filter_fourier`, `morlet_1d`, `gauss_1d`,
  `get_normalizing_factor`, `get_max_dyadic_subsampling`,
  `compute_params_filterbank`, `calibrate_scattering_filters`,
  `scattering_filter_factory`, `conj_fr`, the spin-up construction of
  `psi_fr_factory`),
* `kymatio/scattering1d/core/timefrequency_scattering.py`
  (the second-order pair selection and the frequency-averaged first-order
  branch),
* `kymatio/backend/torch_backend.py` (`TorchBackend.cdgmm`).

Conventions: numpy / tensor arrays along the axis of interest are `List α`
(floating point numbers are modelled as real numbers; entry types that only
need ring structure are kept polymorphic so that concrete instances can be
evaluated); Python exceptions are `Except String`; Python `int` is `ℤ`
(or `ℕ` where the source value is an index or provably non-negative).
-/

/-! ## Backend primitive: `TensorFlowBackend1D.subsample_fourier`
(`kymatio/scattering1d/backend/tensorflow_backend.py`, lines 8-33).

The source reshapes the last axis of length `L` into `(k, L // k)` and takes
`tf.reduce_mean` over the axis of size `k`.  Only the (last) folded axis is
modelled; leading batch axes and the complex-dtype check play no role in the
value computed along that axis. -/

def subsample_fourier {α : Type} [DivisionRing α] (x : List α) (k : ℕ) : List α :=
  (List.range (x.length / k)).map (fun m =>
    (∑ i ∈ Finset.range k, x.getD (i * (x.length / k) + m) 0) / (k : α))

/-! ## `periodize_filter_fourier` (`filter_bank.py`, lines 51-78).

`v_f[k] = sum_{i=0}^{nperiods-1} h_f[i * N + k]` with `N = len(h_f) // nperiods`;
the `mean` aggregation divides the sum by `nperiods`.  The original
dimension-preserving reshape for 2-D input is irrelevant to the folded axis and
is not modelled. -/

inductive Aggregation where
  | sum
  | mean
deriving DecidableEq

def periodize_filter_fourier {α : Type} [DivisionRing α] (h_f : List α)
    (nperiods : ℕ) (aggregation : Aggregation := .sum) : List α :=
  (List.range (h_f.length / nperiods)).map (fun k =>
    let s := ∑ i ∈ Finset.range nperiods, h_f.getD (i * (h_f.length / nperiods) + k) 0
    match aggregation with
    | .sum => s
    | .mean => s / (nperiods : α))

/-! ## `conj_fr` (`filter_bank.py`, lines 1265-1272).

`out[0] = x[0]; out[1:] = x[:0:-1]`, i.e. the first entry is kept and the
remaining entries are reversed. -/

def conj_fr {α : Type} (x : List α) : List α :=
  match x with
  | [] => []
  | a :: rest => a :: rest.reverse

/-! ## Spin-up construction of `psi_fr_factory` (`filter_bank.py`, 1029-1037).

Each frequential filter is a dict holding arrays under integer keys (the
stored levels `j0`) together with a `width` sub-dict; it is modelled as an
association list of levels plus the width table.  The factory builds the
up-spin filter from the down-spin one by applying `conj_fr` to every stored
level and copying the `width` entry. -/

structure PsiFr (α : Type) where
  levels : List (ℕ × List α)
  width : List (ℕ × ℕ)

def spin_up_from_down {α : Type} (ψ : PsiFr α) : PsiFr α :=
  { levels := ψ.levels.map (fun p => (p.1, conj_fr p.2)),
    width := ψ.width }

def psi_fr_factory_up {α : Type} (psi1_f_fr_down : List (PsiFr α)) : List (PsiFr α) :=
  psi1_f_fr_down.map spin_up_from_down

/-! ## Second-order pair selection of `timefrequency_scattering`
(`core/timefrequency_scattering.py`, lines 136-163).

The outer loop over `n2` skips filters with `j2 == 0`; the inner loop over
`n1` skips pairs with `j1 >= j2`.  The selection depends only on the `j`
metadata of the two filter banks, modelled as lists of naturals (every `j`
produced by the filter bank is non-negative). -/

def second_order_pairs (j1s j2s : List ℕ) : List (ℕ × ℕ) :=
  (List.range j2s.length).flatMap (fun n2 =>
    if j2s.getD n2 0 = 0 then []
    else (List.range j1s.length).filterMap (fun n1 =>
      if j1s.getD n1 0 ≥ j2s.getD n2 0 then none else some (n2, n1)))

def second_order_emitted (j2s : List ℕ) : List ℕ :=
  (List.range j2s.length).filter (fun n2 => j2s.getD n2 0 ≠ 0)

/-! ## Helper lemmas on list indexing -/

theorem getD_map_range {β : Type} {n m : ℕ} (f : ℕ → β) (d : β) (h : m < n) :
    ((List.range n).map f).getD m d = f m := by
  rw [List.getD_eq_getElem _ _ (by simpa using h)]
  simp

theorem conj_fr_length {α : Type} (x : List α) : (conj_fr x).length = x.length := by
  cases x with
  | nil => rfl
  | cons a rest => simp [conj_fr]

theorem conj_fr_getD_zero {α : Type} (x : List α) (d : α) :
    (conj_fr x).getD 0 d = x.getD 0 d := by
  cases x with
  | nil => rfl
  | cons a rest => simp [conj_fr]

theorem conj_fr_getD_succ {α : Type} (x : List α) (d : α) (m : ℕ)
    (h : m + 1 < x.length) :
    (conj_fr x).getD (m + 1) d = x.getD (x.length - (m + 1)) d := by
  cases x with
  | nil => simp at h
  | cons a rest =>
    have hm : m < rest.length := by simpa using h
    have h1 : (conj_fr (a :: rest)).getD (m + 1) d = rest.reverse.getD m d := by
      simp [conj_fr]
    have h2 : rest.reverse.getD m d = rest.getD (rest.length - 1 - m) d := by
      rw [List.getD_eq_getElem _ _ (by simpa using hm),
          List.getD_eq_getElem _ _ (by omega)]
      simp [List.getElem_reverse]
    have h3 : (a :: rest).length - (m + 1) = (rest.length - 1 - m) + 1 := by
      simp only [List.length_cons]
      omega
    rw [h1, h2, h3]
    simp

theorem conj_fr_conj_fr {α : Type} (x : List α) : conj_fr (conj_fr x) = x := by
  cases x with
  | nil => rfl
  | cons a rest => simp [conj_fr]

theorem spin_up_from_down_involutive {α : Type} (ψ : PsiFr α) :
    spin_up_from_down (spin_up_from_down ψ) = ψ := by
  cases ψ with
  | mk levels width =>
    simp only [spin_up_from_down, List.map_map]
    congr 1
    conv_rhs => rw [← List.map_id levels]
    apply List.map_congr_left
    intro p _
    simp [Function.comp, conj_fr_conj_fr]

theorem second_order_pairs_mem (j1s j2s : List ℕ) (n2 n1 : ℕ) :
    (n2, n1) ∈ second_order_pairs j1s j2s ↔
      (n2 < j2s.length ∧ n1 < j1s.length ∧ j1s.getD n1 0 < j2s.getD n2 0) := by
  constructor
  · intro hmem
    rw [second_order_pairs, List.mem_flatMap] at hmem
    obtain ⟨a, ha, hin⟩ := hmem
    by_cases hz : j2s.getD a 0 = 0
    · rw [if_pos hz] at hin
      simp at hin
    · rw [if_neg hz, List.mem_filterMap] at hin
      obtain ⟨b, hb, heq⟩ := hin
      by_cases hge : j1s.getD b 0 ≥ j2s.getD a 0
      · rw [if_pos hge] at heq
        simp at heq
      · rw [if_neg hge] at heq
        simp only [Option.some.injEq, Prod.mk.injEq] at heq
        obtain ⟨rfl, rfl⟩ := heq
        exact ⟨List.mem_range.1 ha, List.mem_range.1 hb, lt_of_not_ge hge⟩
  · rintro ⟨h2, h1, hlt⟩
    rw [second_order_pairs, List.mem_flatMap]
    refine ⟨n2, List.mem_range.2 h2, ?_⟩
    rw [if_neg (by omega), List.mem_filterMap]
    exact ⟨n1, List.mem_range.2 h1, by rw [if_neg (by omega)]⟩

/-- C3: in the second-order stage of `timefrequency_scattering`, a time path is
computed for the pair (`n2` with scale `j2`, `n1` with scale `j1`) exactly when
`j1 < j2` (the outer `j2 == 0` skip is subsumed: `j1 < j2` forces `j2 ≠ 0`);
pairs with `j1 ≥ j2` contribute nothing, and — provided some first-order filter
has `j1 = 0`, as holds for every calibrated filter bank — every `n2` that emits
second-order paths has some `n1` with `j1 < j2`. -/
theorem C3_second_order_monotonicity (j1s j2s : List ℕ) (n2 n1 : ℕ)
    (h0 : ∃ i, i < j1s.length ∧ j1s.getD i 0 = 0) :
    ((n2, n1) ∈ second_order_pairs j1s j2s ↔
      (n2 < j2s.length ∧ n1 < j1s.length ∧ j1s.getD n1 0 < j2s.getD n2 0)) ∧
    (∀ n ∈ second_order_emitted j2s, ∃ m, (n, m) ∈ second_order_pairs j1s j2s) := by
  refine ⟨second_order_pairs_mem j1s j2s n2 n1, ?_⟩
  intro n hn
  obtain ⟨i, hi, hzi⟩ := h0
  rw [second_order_emitted, List.mem_filter] at hn
  obtain ⟨hnr, hnz⟩ := hn
  simp only [List.mem_range] at hnr
  simp only [ne_eq, decide_not, Bool.not_eq_eq_eq_not, Bool.not_true,
    decide_eq_false_iff_not] at hnz
  exact ⟨i, (second_order_pairs_mem j1s j2s n i).2 ⟨hnr, hi, by omega⟩⟩

/-- C3 witness: concrete instantiation with `j1s = [0, 1]`, `j2s = [2, 0]`. -/
theorem C3_second_order_monotonicity_witness :
    (((0, 1) ∈ second_order_pairs [0, 1] [2, 0] ↔
      (0 < ([2, 0] : List ℕ).length ∧ 1 < ([0, 1] : List ℕ).length ∧
        ([0, 1] : List ℕ).getD 1 0 < ([2, 0] : List ℕ).getD 0 0)) ∧
    (∀ n ∈ second_order_emitted [2, 0],
      ∃ m, (n, m) ∈ second_order_pairs [0, 1] [2, 0])) :=
  C3_second_order_monotonicity [0, 1] [2, 0] 0 1 ⟨0, by decide, by decide⟩

/-- C6: the up-spin filter built by `psi_fr_factory` from the down-spin one is
its conjugate reflection at every stored level: the level key and the `width`
metadata agree, the DC bin is fixed, and bin `m` of the up filter equals bin
`L - m` of the down filter for `1 ≤ m < L`. -/
theorem C6_psi_fr_up_conjugate_reflection (ψs : List (PsiFr ℝ))
    (n1_fr : Fin ψs.length) (i : Fin ((ψs.get n1_fr).levels.length)) :
    ((psi_fr_factory_up ψs).getD n1_fr ⟨[], []⟩).width = (ψs.get n1_fr).width ∧
    (((psi_fr_factory_up ψs).getD n1_fr ⟨[], []⟩).levels.getD i (0, [])).1 =
      ((ψs.get n1_fr).levels.get i).1 ∧
    (((psi_fr_factory_up ψs).getD n1_fr ⟨[], []⟩).levels.getD i (0, [])).2.length =
      ((ψs.get n1_fr).levels.get i).2.length ∧
    (((psi_fr_factory_up ψs).getD n1_fr ⟨[], []⟩).levels.getD i (0, [])).2.getD 0 0 =
      ((ψs.get n1_fr).levels.get i).2.getD 0 0 ∧
    ∀ m : Fin (((ψs.get n1_fr).levels.get i).2.length - 1),
      (((psi_fr_factory_up ψs).getD n1_fr ⟨[], []⟩).levels.getD i (0, [])).2.getD
          (m.val + 1) 0 =
        ((ψs.get n1_fr).levels.get i).2.getD
          (((ψs.get n1_fr).levels.get i).2.length - (m.val + 1)) 0 := by
  have hup : (psi_fr_factory_up ψs).getD n1_fr ⟨[], []⟩ =
      spin_up_from_down (ψs.get n1_fr) := by
    rw [psi_fr_factory_up, List.getD_eq_getElem _ _ (by simp)]
    simp [List.get_eq_getElem]
  have hlev : ((psi_fr_factory_up ψs).getD n1_fr ⟨[], []⟩).levels.getD i (0, []) =
      (((ψs.get n1_fr).levels.get i).1, conj_fr ((ψs.get n1_fr).levels.get i).2) := by
    rw [hup]
    show ((ψs.get n1_fr).levels.map _).getD i (0, []) = _
    rw [List.getD_eq_getElem _ _ (by simp)]
    simp [List.get_eq_getElem]
  refine ⟨by rw [hup, spin_up_from_down], by rw [hlev], ?_, ?_, ?_⟩
  · rw [hlev]
    exact conj_fr_length _
  · rw [hlev]
    exact conj_fr_getD_zero _ _
  · intro m
    rw [hlev]
    exact conj_fr_getD_succ _ _ m.val (by omega)

/-- C1 (counterexample): the claim predicts that `subsample_fourier` returns the
elementwise sum of the `k` folded segments; on input `x = [2, 0]` with `k = 2`
that sum is `[2]`, but the code (which takes `tf.reduce_mean` over the folded
axis) returns `[1]`. -/
theorem C1_counterexample :
    subsample_fourier ([2, 0] : List ℂ) 2 = [1] ∧
    subsample_fourier ([2, 0] : List ℂ) 2 ≠ [2] := by
  have h : subsample_fourier ([2, 0] : List ℂ) 2 = [1] := by
    simp [subsample_fourier, List.range_succ, Finset.sum_range_succ]
  exact ⟨h, by rw [h]; intro hc; injection hc with h1 _; norm_num at h1⟩

/-- C1 (amended): `subsample_fourier(x, k)` folds the last axis of length `L`
into `k` equal segments and returns their elementwise MEAN: the output has
length `L / k` and output bin `m` equals `(1/k) * sum_{i < k} x[i*(L/k) + m]`
(mean, not sum, aggregation). -/
theorem C1_subsample_fourier_is_mean {α : Type} [DivisionRing α] (x : List α) (k : ℕ) :
    (subsample_fourier x k).length = x.length / k ∧
    ∀ m : Fin (x.length / k),
      (subsample_fourier x k).getD m 0 =
        (∑ i ∈ Finset.range k, x.getD (i * (x.length / k) + m.val) 0) / (k : α) := by
  constructor
  · simp [subsample_fourier]
  · intro m
    exact getD_map_range _ _ m.isLt

/-- C10: `conj_fr` fixes the DC bin (`conj_fr(x)[0] = x[0]`), reverses all the
other bins (`conj_fr(x)[m] = x[L-m]` for `1 ≤ m < L`), and is an involution
(`conj_fr(conj_fr(x)) = x`); consequently the down-spin filter bank is
recovered exactly by applying the `psi_fr_factory` spin-up construction
(conjugation of every stored level) to the up-spin bank. -/
theorem C10_conj_fr_involution (x : List ℝ) (bank : List (PsiFr ℝ)) :
    conj_fr (conj_fr x) = x ∧
    (conj_fr x).getD 0 0 = x.getD 0 0 ∧
    (∀ m : Fin (x.length - 1),
      (conj_fr x).getD (m.val + 1) 0 = x.getD (x.length - (m.val + 1)) 0) ∧
    psi_fr_factory_up (psi_fr_factory_up bank) = bank := by
  refine ⟨conj_fr_conj_fr x, conj_fr_getD_zero x 0, ?_, ?_⟩
  · intro m
    exact conj_fr_getD_succ x 0 m.val (by omega)
  · unfold psi_fr_factory_up
    rw [List.map_map]
    conv_rhs => rw [← List.map_id bank]
    apply List.map_congr_left
    intro ψ _
    simp [Function.comp, spin_up_from_down_involutive]

/-! ## `get_max_dyadic_subsampling` (`filter_bank.py`, lines 372-406).

`upper_bound = min(xi + alpha * sigma, 0.5); j = floor(-log2(upper_bound)) - 1`. -/

noncomputable def get_max_dyadic_subsampling (xi sigma alpha : ℝ) : ℤ :=
  ⌊-Real.logb 2 (min (xi + alpha * sigma) 0.5)⌋ - 1

/-- C4 (counterexample): at `xi = 0.25`, `sigma = 0.05`, `alpha = 5` the code
returns `j = 0`, yet `xi + alpha * sigma = 0.5` does not satisfy the claimed
strict inequality `xi + alpha*sigma < 2^{-(0+1)} = 0.5`, while `j = -1` does
satisfy it — so the hand-derived maximal `j` of the claim is `-1 ≠ 0`. -/
theorem C4_counterexample :
    get_max_dyadic_subsampling (1/4) (1/20) 5 = 0 ∧
    ¬ ((1/4 + 5 * (1/20) : ℝ) < (2:ℝ) ^ (-((0:ℤ)+1))) ∧
    ((1/4 + 5 * (1/20) : ℝ) < (2:ℝ) ^ (-((-1:ℤ)+1))) := by
  refine ⟨?_, by norm_num, by norm_num⟩
  have hmin : min ((1:ℝ)/4 + 5 * (1/20)) 0.5 = 2⁻¹ := by norm_num
  rw [get_max_dyadic_subsampling, hmin, Real.logb_inv,
    Real.logb_self_eq_one one_lt_two]
  norm_num

/-- C4 (amended): `get_max_dyadic_subsampling(xi, sigma, alpha)` returns the
maximal integer `j` such that `min(xi + alpha*sigma, 0.5) ≤ 2^{-(j+1)}` — the
bound is clamped at `0.5` and the inequality is non-strict (so at an exact
power of two, e.g. `xi + alpha*sigma = 0.5`, the returned value is one larger
than the strict-inequality hand derivation): this equivalence characterizes the
returned value as that maximum. -/
theorem C4_max_dyadic_subsampling_charact (xi sigma alpha : ℝ)
    (h : 0 < xi + alpha * sigma) (j : ℤ) :
    min (xi + alpha * sigma) 0.5 ≤ (2:ℝ) ^ (-(j+1)) ↔
      j ≤ get_max_dyadic_subsampling xi sigma alpha := by
  have hw : 0 < min (xi + alpha * sigma) 0.5 := lt_min h (by norm_num)
  rw [show ((2:ℝ) ^ (-(j+1)) : ℝ) = (2:ℝ) ^ ((-(j+1) : ℤ) : ℝ) from
    (Real.rpow_intCast 2 (-(j+1))).symm]
  rw [← Real.logb_le_iff_le_rpow one_lt_two hw, get_max_dyadic_subsampling]
  constructor
  · intro hle
    have h1 : ((j+1 : ℤ) : ℝ) ≤ -Real.logb 2 (min (xi + alpha * sigma) 0.5) := by
      push_cast
      push_cast at hle
      linarith
    have h2 := Int.le_floor.2 h1
    omega
  · intro hj
    have h1 : (j+1 : ℤ) ≤ ⌊-Real.logb 2 (min (xi + alpha * sigma) 0.5)⌋ := by omega
    have h2 := Int.le_floor.1 h1
    push_cast at h2 ⊢
    linarith

/-- C4 witness: the characterization applied at the specified test point
`xi = 0.25`, `sigma = 0.05`, `alpha = 5` with `j = 0`. -/
theorem C4_max_dyadic_subsampling_charact_witness :
    (0 < (1/4 + 5 * (1/20) : ℝ)) ∧
    (min (1/4 + 5 * (1/20) : ℝ) 0.5 ≤ (2:ℝ) ^ (-((0:ℤ)+1)) ↔
      (0:ℤ) ≤ get_max_dyadic_subsampling (1/4) (1/20) 5) :=
  ⟨by norm_num, C4_max_dyadic_subsampling_charact (1/4) (1/20) 5 (by norm_num) 0⟩

/-! ## More list indexing helpers -/

theorem periodize_length {α : Type} [DivisionRing α] (h : List α) (np : ℕ)
    (agg : Aggregation) :
    (periodize_filter_fourier h np agg).length = h.length / np := by
  simp [periodize_filter_fourier]

theorem periodize_getD_sum {α : Type} [DivisionRing α] (h : List α) (np m : ℕ)
    (hm : m < h.length / np) :
    (periodize_filter_fourier h np).getD m 0 =
      ∑ i ∈ Finset.range np, h.getD (i * (h.length / np) + m) 0 :=
  getD_map_range _ _ hm

theorem getD_map_of_lt {β γ : Type} (l : List β) (f : β → γ) (i : ℕ)
    (d : γ) (db : β) (h : i < l.length) :
    (l.map f).getD i d = f (l.getD i db) := by
  rw [List.getD_eq_getElem _ _ (by simpa using h), List.getD_eq_getElem _ _ h]
  simp

theorem zipWith_getD_zero {β γ δ : Type} (f : β → γ → δ) (a : List β)
    (b : List γ) (da : β) (db : γ) (dc : δ) (ha : a ≠ []) (hb : b ≠ []) :
    (List.zipWith f a b).getD 0 dc = f (a.getD 0 da) (b.getD 0 db) := by
  cases a with
  | nil => exact absurd rfl ha
  | cons x xs =>
    cases b with
    | nil => exact absurd rfl hb
    | cons y ys => rfl

/-! ## `adaptive_choice_P` (`filter_bank.py`, lines 6-48) and the Morlet /
Gaussian synthesis (`morlet_1d`, lines 81-143; `gauss_1d`, lines 175-223;
`get_normalizing_factor`, lines 146-172).

Frequency grids: `np.arange((1-P)*N, P*N) / N` for the `2P-1`-period grid, and
`np.fft.fftfreq(N)` for the single-period low-pass grid used when `P == 1`.
The inverse DFT used by the normalization is spelled out explicitly. -/

noncomputable def adaptive_choice_P (sigma eps : ℝ) : ℤ :=
  ⌈Real.sqrt (-(2 * sigma^2 * Real.log eps)) + 1⌉

noncomputable def fftfreq (N : ℕ) (i : ℕ) : ℝ :=
  if i < N - N / 2 then (i : ℝ) / N else ((i : ℝ) - N) / N

noncomputable def morlet_freqs (N : ℕ) (P : ℤ) (i : ℕ) : ℝ :=
  (((1 - P) * N + i : ℤ) : ℝ) / N

noncomputable def morlet_gabor_f (N : ℕ) (xi sigma : ℝ) (P : ℤ) : List ℝ :=
  periodize_filter_fourier
    ((List.range ((2 * P - 1).toNat * N)).map (fun i =>
      Real.exp (-(morlet_freqs N P i - xi)^2 / (2 * sigma^2))))
    (2 * P - 1).toNat

noncomputable def morlet_low_pass_f (N : ℕ) (sigma : ℝ) (P : ℤ) : List ℝ :=
  periodize_filter_fourier
    (if P = 1 then
      (List.range N).map (fun i => Real.exp (-(fftfreq N i)^2 / (2 * sigma^2)))
    else
      (List.range ((2 * P - 1).toNat * N)).map (fun i =>
        Real.exp (-(morlet_freqs N P i)^2 / (2 * sigma^2))))
    (2 * P - 1).toNat

noncomputable def morlet_unnormalized (N : ℕ) (xi sigma : ℝ) (P_max : ℤ)
    (eps : ℝ) : List ℝ :=
  let P := min (adaptive_choice_P sigma eps) P_max
  let gabor_f := morlet_gabor_f N xi sigma P
  let low_pass_f := morlet_low_pass_f N sigma P
  let kappa := gabor_f.getD 0 0 / low_pass_f.getD 0 0
  List.zipWith (fun g l => g - kappa * l) gabor_f low_pass_f

noncomputable def ifft (h : List ℝ) (n : ℕ) : ℂ :=
  (1 / (h.length : ℂ)) * ∑ k ∈ Finset.range h.length,
    ((h.getD k 0 : ℝ) : ℂ) * Complex.exp (2 * Real.pi * Complex.I * k * n / h.length)

noncomputable def time_domain_abs_sum (h : List ℝ) : ℝ :=
  ∑ n ∈ Finset.range h.length, Complex.abs (ifft h n)

noncomputable def get_normalizing_factor (h_f : List ℝ) (normalize : String) :
    Except String ℝ :=
  if time_domain_abs_sum h_f < 1e-7 then
    .error "Zero division error is very likely to occur, aborting computations now."
  else if normalize = "l1" then
    .ok (1 / time_domain_abs_sum h_f)
  else if normalize = "l2" then
    .ok (1 / Real.sqrt (∑ n ∈ Finset.range h_f.length, Complex.abs (ifft h_f n) ^ 2))
  else
    .error "Supported normalizations only include l1 and l2"

noncomputable def morlet_1d (N : ℕ) (xi sigma : ℝ) (normalize : String)
    (P_max : ℤ) (eps : ℝ) : Except String (List ℝ) :=
  if P_max < 1 then .error "P_max should be non-negative"
  else do
    let m := morlet_unnormalized N xi sigma P_max eps
    let factor ← get_normalizing_factor m normalize
    pure (m.map (fun v => v * factor))

noncomputable def gauss_1d (N : ℕ) (sigma : ℝ) (normalize : String)
    (P_max : ℤ) (eps : ℝ) : Except String (List ℝ) :=
  if P_max < 1 then .error "P_max should be non-negative"
  else do
    let P := min (adaptive_choice_P sigma eps) P_max
    let g := morlet_low_pass_f N sigma P
    let factor ← get_normalizing_factor g normalize
    pure (g.map (fun v => v * factor))

theorem adaptive_choice_P_ge_one (sigma eps : ℝ) : 1 ≤ adaptive_choice_P sigma eps := by
  have h : (1:ℝ) ≤ Real.sqrt (-(2 * sigma^2 * Real.log eps)) + 1 := by
    have := Real.sqrt_nonneg (-(2 * sigma^2 * Real.log eps))
    linarith
  calc (1:ℤ) = ⌈(1:ℝ)⌉ := by norm_num
  _ ≤ ⌈Real.sqrt (-(2 * sigma^2 * Real.log eps)) + 1⌉ := Int.ceil_le_ceil h

theorem morlet_gabor_f_length (N : ℕ) (xi sigma : ℝ) (P : ℤ) (hP : 1 ≤ P) :
    (morlet_gabor_f N xi sigma P).length = N := by
  have hnp : 0 < (2 * P - 1).toNat := by omega
  rw [morlet_gabor_f, periodize_length, List.length_map, List.length_range]
  exact Nat.mul_div_cancel_left _ hnp

theorem morlet_low_pass_f_length (N : ℕ) (sigma : ℝ) (P : ℤ) (hP : 1 ≤ P) :
    (morlet_low_pass_f N sigma P).length = N := by
  have hnp : 0 < (2 * P - 1).toNat := by omega
  rw [morlet_low_pass_f, periodize_length]
  by_cases h1 : P = 1
  · subst h1
    norm_num
  · rw [if_neg h1, List.length_map, List.length_range]
    exact Nat.mul_div_cancel_left _ hnp

theorem morlet_low_pass_f_DC_pos (N : ℕ) (sigma : ℝ) (P : ℤ)
    (hP : 1 ≤ P) (hN : 1 ≤ N) :
    0 < (morlet_low_pass_f N sigma P).getD 0 0 := by
  have hnp : 0 < (2 * P - 1).toNat := by omega
  rw [morlet_low_pass_f]
  by_cases h1 : P = 1
  · subst h1
    have hnp1 : (2 * (1:ℤ) - 1).toNat = 1 := by norm_num
    rw [if_pos rfl, hnp1]
    have hlen : ((List.range N).map
        (fun i => Real.exp (-(fftfreq N i)^2 / (2 * sigma^2)))).length = N := by
      simp
    rw [periodize_getD_sum _ _ _ (by rw [hlen]; omega)]
    rw [Finset.sum_range_one]
    rw [hlen]
    rw [getD_map_range _ _ (by omega)]
    exact Real.exp_pos _
  · rw [if_neg h1]
    have hlen : ((List.range ((2 * P - 1).toNat * N)).map
        (fun i => Real.exp (-(morlet_freqs N P i)^2 / (2 * sigma^2)))).length =
        (2 * P - 1).toNat * N := by
      simp
    have hdiv : ((2 * P - 1).toNat * N) / (2 * P - 1).toNat = N :=
      Nat.mul_div_cancel_left _ hnp
    rw [periodize_getD_sum _ _ _ (by rw [hlen, hdiv]; omega)]
    apply Finset.sum_pos
    · intro i hi
      rw [hlen, hdiv]
      have hilt : i < (2 * P - 1).toNat := Finset.mem_range.1 hi
      have hbnd : i * N + 0 < (2 * P - 1).toNat * N := by
        have := (Nat.mul_lt_mul_right (show 0 < N by omega)).mpr hilt
        omega
      rw [getD_map_range _ _ hbnd]
      exact Real.exp_pos _
    · exact Finset.nonempty_range_iff.2 (by omega)

theorem morlet_unnormalized_length (N : ℕ) (xi sigma : ℝ) (P_max : ℤ)
    (eps : ℝ) (hP : 1 ≤ P_max) :
    (morlet_unnormalized N xi sigma P_max eps).length = N := by
  have hPge : 1 ≤ min (adaptive_choice_P sigma eps) P_max :=
    le_min (adaptive_choice_P_ge_one sigma eps) hP
  rw [morlet_unnormalized]
  simp only [List.length_zipWith]
  rw [morlet_gabor_f_length _ _ _ _ hPge, morlet_low_pass_f_length _ _ _ hPge]
  omega

theorem morlet_unnormalized_DC (N : ℕ) (xi sigma : ℝ) (P_max : ℤ) (eps : ℝ)
    (hP : 1 ≤ P_max) (hN : 1 ≤ N) :
    (morlet_unnormalized N xi sigma P_max eps).getD 0 0 = 0 := by
  have hPge : 1 ≤ min (adaptive_choice_P sigma eps) P_max :=
    le_min (adaptive_choice_P_ge_one sigma eps) hP
  rw [morlet_unnormalized]
  have hg : (morlet_gabor_f N xi sigma (min (adaptive_choice_P sigma eps) P_max)) ≠ [] := by
    intro hc
    have := morlet_gabor_f_length N xi sigma _ hPge
    rw [hc] at this
    simp at this
    omega
  have hl : (morlet_low_pass_f N sigma (min (adaptive_choice_P sigma eps) P_max)) ≠ [] := by
    intro hc
    have := morlet_low_pass_f_length N sigma _ hPge
    rw [hc] at this
    simp at this
    omega
  rw [zipWith_getD_zero _ _ _ 0 0 0 hg hl]
  have hpos := morlet_low_pass_f_DC_pos N sigma _ hPge hN
  rw [div_mul_cancel₀ _ (ne_of_gt hpos), sub_self]

/-- C5: the Morlet filter synthesized by `morlet_1d` has its DC entry
(frequency bin 0) exactly equal to zero, both before the normalization
(`morlet_unnormalized`, i.e. `gabor_f - kappa * low_pass_f` with
`kappa = gabor_f[0] / low_pass_f[0]`) and after the L1/L2 normalization
scaling, for every valid input (`P_max ≥ 1`, nonempty support). -/
theorem C5_morlet_zero_mean (N : ℕ) (xi sigma : ℝ) (normalize : String)
    (P_max : ℤ) (eps : ℝ) (hP : 1 ≤ P_max) (hN : 1 ≤ N) :
    (morlet_unnormalized N xi sigma P_max eps).getD 0 0 = 0 ∧
    (morlet_1d N xi sigma normalize P_max eps).map (fun res => res.getD 0 0) =
      (morlet_1d N xi sigma normalize P_max eps).map (fun _ => (0:ℝ)) := by
  have hdc := morlet_unnormalized_DC N xi sigma P_max eps hP hN
  refine ⟨hdc, ?_⟩
  have hne : morlet_unnormalized N xi sigma P_max eps ≠ [] := by
    intro hc
    have := morlet_unnormalized_length N xi sigma P_max eps hP
    rw [hc] at this
    simp at this
    omega
  have hlen : 0 < (morlet_unnormalized N xi sigma P_max eps).length :=
    List.length_pos.2 hne
  cases hgn : get_normalizing_factor (morlet_unnormalized N xi sigma P_max eps)
      normalize with
  | error e =>
    have herr : morlet_1d N xi sigma normalize P_max eps = Except.error e := by
      rw [morlet_1d, if_neg (by omega)]
      simp [hgn]
    rw [herr]
    rfl
  | ok factor =>
    have hok : morlet_1d N xi sigma normalize P_max eps =
        Except.ok ((morlet_unnormalized N xi sigma P_max eps).map
          (fun v => v * factor)) := by
      rw [morlet_1d, if_neg (by omega)]
      simp [hgn]
    rw [hok]
    simp only [Except.map]
    congr 1
    rw [getD_map_of_lt _ _ _ _ 0 hlen, hdc, zero_mul]

/-- C5 witness: concrete instantiation at `N = 4`, `xi = 1/4`, `sigma = 1/10`,
`normalize = l1`, `P_max = 5`, `eps = 1e-7`. -/
theorem C5_morlet_zero_mean_witness :
    ((1:ℤ) ≤ 5 ∧ (1:ℕ) ≤ 4) ∧
    ((morlet_unnormalized 4 (1/4) (1/10) 5 (1/10^7)).getD 0 0 = 0 ∧
     (morlet_1d 4 (1/4) (1/10) "l1" 5 (1/10^7)).map (fun res => res.getD 0 0) =
       (morlet_1d 4 (1/4) (1/10) "l1" 5 (1/10^7)).map (fun _ => (0:ℝ))) :=
  ⟨⟨by norm_num, by norm_num⟩,
    C5_morlet_zero_mean 4 (1/4) (1/10) "l1" 5 (1/10^7) (by norm_num) (by norm_num)⟩

/-! ## Filter-bank calibration (`filter_bank.py`: `compute_sigma_psi` lines
226-260, `compute_xi_max` lines 453-468, `compute_params_filterbank` lines
471-555, `calibrate_scattering_filters` lines 558-636).

The `while` loop of `compute_params_filterbank` appends one wavelet per
iteration with `xi` and `sigma` both scaled by `factor = 2^(-1/Q)` each step;
it is encoded by its iteration count: the least `k` at which the loop
condition fails (`0` when no such `k` exists, in which case the Python source
loops forever).  The first loop entry carries the hard-coded `j = 0` of the
initial `current` dict; later entries compute `j` via `move_one_dyadic_step`,
i.e. `get_max_dyadic_subsampling` at the stepped parameters. -/

noncomputable def compute_sigma_psi (xi : ℝ) (Q : ℤ) (r : ℝ) : ℝ :=
  let factor := 1 / (2:ℝ) ^ ((1:ℝ) / (Q:ℝ))
  xi * ((1 - factor) / (1 + factor)) * (1 / Real.sqrt (2 * Real.log (1 / r)))

noncomputable def compute_xi_max (Q : ℤ) : ℝ :=
  max (1 / (1 + (2:ℝ) ^ ((3:ℝ) / (Q:ℝ)))) 0.35

open Classical in
noncomputable def compute_params_filterbank (sigma_min : ℝ) (Q : ℤ)
    (r_psi alpha : ℝ) (xi_min : Option ℝ) : List ℝ × List ℝ × List ℤ :=
  let xim := xi_min.getD (-1)
  let xi_max := compute_xi_max Q
  let sigma_max := compute_sigma_psi xi_max Q r_psi
  let factor := 1 / (2:ℝ) ^ ((1:ℝ) / (Q:ℝ))
  let n_stop := if h : ∃ n, ¬(sigma_max * factor ^ n > sigma_min ∧
      xi_max * factor ^ n > xim) then Nat.find h else 0
  let xi_loop := (List.range n_stop).map (fun k => xi_max * factor ^ k)
  let sigma_loop := (List.range n_stop).map (fun k => sigma_max * factor ^ k)
  let j_loop := (List.range n_stop).map (fun k =>
    if k = 0 then 0 else
      get_max_dyadic_subsampling (xi_max * factor ^ k) (sigma_max * factor ^ k)
        alpha)
  let last_xi := if sigma_max ≤ sigma_min ∨ xi_max ≤ xim then sigma_max
    else xi_loop.getLastD sigma_max
  let qs := ((List.range (Q - 1).toNat).map (fun q : ℕ => q + 1)).takeWhile
    (fun q => !decide (((Q:ℝ) - (q:ℝ)) / (Q:ℝ) * last_xi < xim))
  let xi_int := qs.map (fun q => ((Q:ℝ) - (q:ℝ)) / (Q:ℝ) * last_xi)
  let sigma_int := qs.map (fun _ => sigma_min)
  let j_int := qs.map (fun q =>
    get_max_dyadic_subsampling (((Q:ℝ) - (q:ℝ)) / (Q:ℝ) * last_xi) sigma_min alpha)
  (xi_loop ++ xi_int, sigma_loop ++ sigma_int, j_loop ++ j_int)

noncomputable def calibrate_scattering_filters (J : ℕ) (Q : ℤ ⊕ (ℤ × ℤ))
    (T r_psi sigma0 alpha : ℝ) (xi_min : Option ℝ) :
    Except String (ℝ × (List ℝ × List ℝ × List ℤ) × (List ℝ × List ℝ × List ℤ)) :=
  let Q1 := match Q with | .inl q => q | .inr p => p.1
  let Q2 := match Q with | .inl _ => 1 | .inr p => p.2
  if Q1 < 1 ∨ Q2 < 1 then .error "Q should always be >= 1"
  else
    let sigma_min := sigma0 / (2:ℝ) ^ J
    let sigma_low := sigma0 / T
    .ok (sigma_low,
      compute_params_filterbank sigma_min Q1 r_psi alpha xi_min,
      compute_params_filterbank sigma_min Q2 r_psi alpha xi_min)

/-- C8: filter-bank construction rejects invalid configurations before
synthesis: `calibrate_scattering_filters` raises a ValueError whenever
`Q1 < 1` or `Q2 < 1` (with `Q2 = 1` when `Q` is a plain integer), and
`get_normalizing_factor` raises a ValueError — rather than returning a value —
whenever the time-domain absolute sum of the filter is below `1e-7`. -/
theorem C8_validation_errors :
    (∀ (J : ℕ) (Q : ℤ ⊕ (ℤ × ℤ)) (T r_psi sigma0 alpha : ℝ) (xi_min : Option ℝ),
      ((match Q with | .inl q => q | .inr p => p.1) < 1 ∨
       (match Q with | .inl _ => 1 | .inr p => p.2) < 1) →
      calibrate_scattering_filters J Q T r_psi sigma0 alpha xi_min =
        .error "Q should always be >= 1") ∧
    (∀ (h_f : List ℝ) (normalize : String), time_domain_abs_sum h_f < 1e-7 →
      get_normalizing_factor h_f normalize =
        .error
          "Zero division error is very likely to occur, aborting computations now.") := by
  constructor
  · intro J Q T r_psi sigma0 alpha xi_min hQ
    simp only [calibrate_scattering_filters]
    rw [if_pos hQ]
  · intro h_f normalize hs
    rw [get_normalizing_factor, if_pos hs]

theorem time_domain_abs_sum_zero_list : time_domain_abs_sum ([0, 0] : List ℝ) = 0 := by
  rw [time_domain_abs_sum]
  apply Finset.sum_eq_zero
  intro n _
  rw [ifft]
  have hz : ∑ k ∈ Finset.range ([0, 0] : List ℝ).length,
      ((([0, 0] : List ℝ).getD k 0 : ℝ) : ℂ) *
        Complex.exp (2 * Real.pi * Complex.I * k * n / (([0, 0] : List ℝ).length : ℂ)) = 0 := by
    apply Finset.sum_eq_zero
    intro k hk
    have hk2 : k < 2 := by simpa using Finset.mem_range.1 hk
    interval_cases k <;> simp
  rw [hz, mul_zero]
  simp

/-- C8 witness: `Q = 0` (so `Q1 = 0 < 1`) makes the calibration reject, and the
all-zero filter `[0, 0]` (whose time-domain absolute sum is `0 < 1e-7`) makes
the normalization reject. -/
theorem C8_validation_errors_witness :
    ((match (Sum.inl 0 : ℤ ⊕ (ℤ × ℤ)) with | .inl q => q | .inr p => p.1) < 1 ∨
     (match (Sum.inl 0 : ℤ ⊕ (ℤ × ℤ)) with | .inl _ => 1 | .inr p => p.2) < 1) ∧
    calibrate_scattering_filters 1 (Sum.inl 0) 1 1 1 1 none =
      .error "Q should always be >= 1" ∧
    time_domain_abs_sum ([0, 0] : List ℝ) < 1e-7 ∧
    get_normalizing_factor ([0, 0] : List ℝ) "l1" =
      .error "Zero division error is very likely to occur, aborting computations now." := by
  have hs : time_domain_abs_sum ([0, 0] : List ℝ) < 1e-7 := by
    rw [time_domain_abs_sum_zero_list]
    norm_num
  exact ⟨by norm_num,
    (C8_validation_errors.1) 1 (Sum.inl 0) 1 1 1 1 none (by norm_num),
    hs, (C8_validation_errors.2) [0, 0] "l1" hs⟩

/-! ## Frequency-averaged first-order branch of `timefrequency_scattering`
(`core/timefrequency_scattering.py`, lines 77-128).

The branch zero-pads the stacked first-order outputs to `2**sc_freq.J_pad_fo`
rows, low-passes them with `sc_freq.phi_f_fo`, computes
`lowpass_subsample_fr = max(total_subsample_fr_max -
reference_total_subsample_so_far - oversampling_fr, 0)`, subsamples by
`2**lowpass_subsample_fr`, then — only when `sc_freq.J_fr_fo > sc_freq.J_fr` —
decrements the counter by one before using it to select the unpad indices
(Python negative indices wrap from the end of the list, modelled by `pyget`;
`max` of an empty Python list raises, junk-modelled as `0`). -/

inductive OutType where
  | array
  | list
deriving DecidableEq

def pymax (l : List ℤ) : ℤ := l.max?.getD 0

def pyget (l : List ℕ) (i : ℤ) : ℕ :=
  if 0 ≤ i then l.getD i.toNat 0 else l.getD (l.length - (-i).toNat) 0

structure ScFreqFo where
  J_fr_fo : ℤ
  J_fr : ℤ
  J_pad_fo : ℕ
  j0s : List ℤ
  phi_f_fo : List ℝ
  ind_start_last : List ℕ
  ind_end_last : List ℕ
  ind_start_max : List ℕ
  ind_end_max : List ℕ

structure FoBranchOut where
  pad_rows : ℕ
  lowpass_filter : List ℝ
  sub_before : ℤ
  sub_used : ℤ
  unpad_start : ℕ
  unpad_end : ℕ

def s1_fr_average_branch (scf : ScFreqFo) (aligned : Bool) (out_type : OutType)
    (oversampling_fr : ℤ) : FoBranchOut :=
  let total_subsample_fr_max :=
    if aligned then scf.J_fr_fo - pymax scf.j0s else scf.J_fr_fo
  let reference_total_subsample_so_far :=
    if aligned then
      (if out_type = OutType.array then 0 else pymax scf.j0s) + 0
    else 0
  let lowpass_subsample_fr := max (total_subsample_fr_max -
    reference_total_subsample_so_far - oversampling_fr) 0
  let sub_used := if scf.J_fr_fo > scf.J_fr then lowpass_subsample_fr - 1
    else lowpass_subsample_fr
  { pad_rows := 2 ^ scf.J_pad_fo
    lowpass_filter := scf.phi_f_fo
    sub_before := lowpass_subsample_fr
    sub_used := sub_used
    unpad_start := pyget (if out_type = OutType.list then scf.ind_start_last
      else scf.ind_start_max) sub_used
    unpad_end := pyget (if out_type = OutType.list then scf.ind_end_last
      else scf.ind_end_max) sub_used }

/-- C7: in the frequency-averaged first-order branch, the frequency low-pass
of the zeroth marginal path is always computed at `2**sc_freq.J_pad_fo`
padding rows with the filter `sc_freq.phi_f_fo` (the larger padding when
`sc_freq.J_fr_fo > sc_freq.J_fr`), and its frequency-subsampling counter is
decremented by exactly one — and only when `sc_freq.J_fr_fo > sc_freq.J_fr` —
before being used to select the unpad indices; otherwise it is unchanged. -/
theorem C7_fo_lowpass_pad_and_decrement (scf : ScFreqFo) (aligned : Bool)
    (out_type : OutType) (oversampling_fr : ℤ) :
    (s1_fr_average_branch scf aligned out_type oversampling_fr).pad_rows =
      2 ^ scf.J_pad_fo ∧
    (s1_fr_average_branch scf aligned out_type oversampling_fr).lowpass_filter =
      scf.phi_f_fo ∧
    (s1_fr_average_branch scf aligned out_type oversampling_fr).sub_before =
      max ((if aligned then scf.J_fr_fo - pymax scf.j0s else scf.J_fr_fo) -
        (if aligned then (if out_type = OutType.array then 0 else pymax scf.j0s)
         else 0) - oversampling_fr) 0 ∧
    (s1_fr_average_branch scf aligned out_type oversampling_fr).sub_used =
      (s1_fr_average_branch scf aligned out_type oversampling_fr).sub_before -
        (if scf.J_fr_fo > scf.J_fr then 1 else 0) ∧
    (s1_fr_average_branch scf aligned out_type oversampling_fr).unpad_start =
      pyget (if out_type = OutType.list then scf.ind_start_last
        else scf.ind_start_max)
        ((s1_fr_average_branch scf aligned out_type oversampling_fr).sub_used) ∧
    (s1_fr_average_branch scf aligned out_type oversampling_fr).unpad_end =
      pyget (if out_type = OutType.list then scf.ind_end_last
        else scf.ind_end_max)
        ((s1_fr_average_branch scf aligned out_type oversampling_fr).sub_used) := by
  refine ⟨rfl, rfl, ?_, ?_, rfl, rfl⟩
  · simp only [s1_fr_average_branch, add_zero]
  · simp only [s1_fr_average_branch]
    split <;> omega

/-! ## `TorchBackend.cdgmm` (`kymatio/backend/torch_backend.py`, lines 57-120).

Tensors are modelled by their dtype, device and shape metadata plus their
values as a function of the multi-index.  The source checks, in order: `B` is
real or complex (`complex_check(B)` when not real), `A` is complex, the
trailing-shape compatibility (Python slices `sa[-B.ndim:]`, `sa[-B.ndim:-1]`,
`sb[:-1]`), then the cuda/cpu device constraints; the dtype-equality check
present in the source is commented out.  `A * B` is the broadcast elementwise
product (a size-1 trailing axis of either operand broadcasts).  For the
`out=None` path only (`out` is never passed by the cascade). -/

inductive TorchDtype where
  | float32
  | float64
  | complex64
  | complex128
  | int64
deriving DecidableEq

def torch_is_real : TorchDtype → Bool
  | .float32 => true
  | .float64 => true
  | _ => false

def torch_is_complex : TorchDtype → Bool
  | .complex64 => true
  | .complex128 => true
  | _ => false

inductive TorchDeviceType where
  | cpu
  | cuda
deriving DecidableEq

structure TorchDevice where
  type : TorchDeviceType
  index : ℕ
deriving DecidableEq

structure TorchTensor (α : Type) where
  dtype : TorchDtype
  device : TorchDevice
  shape : List ℕ
  data : List ℕ → α

inductive CdgmmError where
  | typeError (msg : String)
  | runtimeError (sa sb : List ℕ)
deriving DecidableEq

def takeLast {β : Type} (l : List β) (n : ℕ) : List β := l.drop (l.length - n)

def cdgmm_shape_ok (sa sb : List ℕ) : Bool :=
  (takeLast sa sb.length == sb) ||
    ((sa.getLastD 0 == 1 || sb.getLastD 0 == 1) &&
      ((takeLast sa sb.length).dropLast == sb.dropLast))

def broadcast_index (shape idx : List ℕ) : List ℕ :=
  List.zipWith (fun c s => if s = 1 then 0 else c) idx shape

def cdgmm_mul {α : Type} [Mul α] (A B : TorchTensor α) : TorchTensor α :=
  { dtype := A.dtype
    device := A.device
    shape := A.shape.dropLast ++ [max (A.shape.getLastD 0) (B.shape.getLastD 0)]
    data := fun idx =>
      A.data (broadcast_index A.shape idx) *
        B.data (broadcast_index B.shape
          (idx.drop (A.shape.length - B.shape.length))) }

def cdgmm_device_error {α : Type} (A B : TorchTensor α) : Option String :=
  if B.device.type = TorchDeviceType.cuda then
    if A.device.type = TorchDeviceType.cuda then
      if A.device.index ≠ B.device.index then
        some "Input and filter must be on the same GPU"
      else none
    else some "Input must be on GPU"
  else if A.device.type = TorchDeviceType.cuda then some "Input must be on CPU"
  else none

def cdgmm {α : Type} [Mul α] (A B : TorchTensor α) :
    Except CdgmmError (TorchTensor α) :=
  if ¬ torch_is_real B.dtype ∧ ¬ torch_is_complex B.dtype then
    .error (.typeError "The input should be complex")
  else if ¬ torch_is_complex A.dtype then
    .error (.typeError "The input should be complex")
  else if ¬ cdgmm_shape_ok A.shape B.shape then
    .error (.runtimeError A.shape B.shape)
  else if B.device.type = TorchDeviceType.cuda ∧
      A.device.type = TorchDeviceType.cuda ∧
      A.device.index ≠ B.device.index then
    .error (.typeError "Input and filter must be on the same GPU")
  else if B.device.type = TorchDeviceType.cuda ∧
      A.device.type ≠ TorchDeviceType.cuda then
    .error (.typeError "Input must be on GPU")
  else if B.device.type = TorchDeviceType.cpu ∧
      A.device.type = TorchDeviceType.cuda then
    .error (.typeError "Input must be on CPU")
  else
    .ok (cdgmm_mul A B)

/-- C9 (counterexample): `cdgmm` does not raise on a dtype mismatch — the
dtype-equality check is commented out in the source.  Two shape-compatible
same-device tensors with dtypes `complex64` and `complex128` multiply
successfully, contradicting the claimed TypeError. -/
theorem C9_counterexample :
    ((⟨.complex64, ⟨.cpu, 0⟩, [2, 2], fun _ => (1:ℚ)⟩ : TorchTensor ℚ).dtype ≠
      (⟨.complex128, ⟨.cpu, 0⟩, [2, 2], fun _ => (1:ℚ)⟩ : TorchTensor ℚ).dtype) ∧
    (cdgmm (⟨.complex64, ⟨.cpu, 0⟩, [2, 2], fun _ => (1:ℚ)⟩ : TorchTensor ℚ)
      (⟨.complex128, ⟨.cpu, 0⟩, [2, 2], fun _ => (1:ℚ)⟩ : TorchTensor ℚ)).isOk =
      true := by
  exact ⟨by decide, rfl⟩

/-- C9 (amended): provided `B` is real or complex and `A` is complex, `cdgmm`
raises a RuntimeError carrying both shapes exactly when the trailing shapes
are incompatible; otherwise it raises a TypeError exactly on a device
mismatch (different GPUs, filter on GPU with input elsewhere, or filter on
CPU with input on GPU); otherwise it returns the broadcast product `A * B`.
Differing dtypes alone never raise (the dtype check is disabled in the
source). -/
theorem C9_cdgmm_error_contract {α : Type} [Mul α] (A B : TorchTensor α)
    (hB : torch_is_real B.dtype = true ∨ torch_is_complex B.dtype = true)
    (hA : torch_is_complex A.dtype = true) :
    cdgmm A B =
      (if cdgmm_shape_ok A.shape B.shape = false then
        .error (.runtimeError A.shape B.shape)
      else
        match cdgmm_device_error A B with
        | some msg => .error (.typeError msg)
        | none => .ok (cdgmm_mul A B)) := by
  have h1 : ¬ (¬ torch_is_real B.dtype ∧ ¬ torch_is_complex B.dtype) := by
    rcases hB with h | h <;> simp [h]
  rw [cdgmm, if_neg h1, if_neg (show ¬¬ torch_is_complex A.dtype = true by simp [hA])]
  by_cases hsh : cdgmm_shape_ok A.shape B.shape = true
  · rw [if_neg (show ¬¬ cdgmm_shape_ok A.shape B.shape = true from not_not_intro hsh),
      if_neg (show ¬ cdgmm_shape_ok A.shape B.shape = false by simp [hsh])]
    by_cases hBc : B.device.type = TorchDeviceType.cuda
    · by_cases hAc : A.device.type = TorchDeviceType.cuda
      · by_cases hidx : A.device.index ≠ B.device.index
        · rw [if_pos (show B.device.type = TorchDeviceType.cuda ∧
              A.device.type = TorchDeviceType.cuda ∧
              A.device.index ≠ B.device.index from ⟨hBc, hAc, hidx⟩)]
          have hdev : cdgmm_device_error A B =
              some "Input and filter must be on the same GPU" := by
            rw [cdgmm_device_error, if_pos hBc, if_pos hAc, if_pos hidx]
          rw [hdev]
        · rw [if_neg (show ¬(B.device.type = TorchDeviceType.cuda ∧
              A.device.type = TorchDeviceType.cuda ∧
              A.device.index ≠ B.device.index) from fun h => hidx h.2.2),
            if_neg (show ¬(B.device.type = TorchDeviceType.cuda ∧
              A.device.type ≠ TorchDeviceType.cuda) from fun h => h.2 hAc),
            if_neg (show ¬(B.device.type = TorchDeviceType.cpu ∧
              A.device.type = TorchDeviceType.cuda) from fun h => by
                rw [hBc] at h
                exact absurd h.1 (by decide))]
          have hdev : cdgmm_device_error A B = none := by
            rw [cdgmm_device_error, if_pos hBc, if_pos hAc, if_neg hidx]
          rw [hdev]
      · rw [if_neg (show ¬(B.device.type = TorchDeviceType.cuda ∧
            A.device.type = TorchDeviceType.cuda ∧
            A.device.index ≠ B.device.index) from fun h => hAc h.2.1),
          if_pos (show B.device.type = TorchDeviceType.cuda ∧
            A.device.type ≠ TorchDeviceType.cuda from ⟨hBc, hAc⟩)]
        have hdev : cdgmm_device_error A B = some "Input must be on GPU" := by
          rw [cdgmm_device_error, if_pos hBc, if_neg hAc]
        rw [hdev]
    · have hBcpu : B.device.type = TorchDeviceType.cpu := by
        cases hh : B.device.type
        · rfl
        · exact absurd hh hBc
      by_cases hAc : A.device.type = TorchDeviceType.cuda
      · rw [if_neg (show ¬(B.device.type = TorchDeviceType.cuda ∧
            A.device.type = TorchDeviceType.cuda ∧
            A.device.index ≠ B.device.index) from fun h => hBc h.1),
          if_neg (show ¬(B.device.type = TorchDeviceType.cuda ∧
            A.device.type ≠ TorchDeviceType.cuda) from fun h => hBc h.1),
          if_pos (show B.device.type = TorchDeviceType.cpu ∧
            A.device.type = TorchDeviceType.cuda from ⟨hBcpu, hAc⟩)]
        have hdev : cdgmm_device_error A B = some "Input must be on CPU" := by
          rw [cdgmm_device_error, if_neg hBc, if_pos hAc]
        rw [hdev]
      · rw [if_neg (show ¬(B.device.type = TorchDeviceType.cuda ∧
            A.device.type = TorchDeviceType.cuda ∧
            A.device.index ≠ B.device.index) from fun h => hBc h.1),
          if_neg (show ¬(B.device.type = TorchDeviceType.cuda ∧
            A.device.type ≠ TorchDeviceType.cuda) from fun h => hBc h.1),
          if_neg (show ¬(B.device.type = TorchDeviceType.cpu ∧
            A.device.type = TorchDeviceType.cuda) from fun h => hAc h.2)]
        have hdev : cdgmm_device_error A B = none := by
          rw [cdgmm_device_error, if_neg hBc, if_neg hAc]
        rw [hdev]
  · rw [if_pos (show ¬ cdgmm_shape_ok A.shape B.shape = true from hsh),
      if_pos (show cdgmm_shape_ok A.shape B.shape = false by
        simpa using hsh)]

/-- C9 witness: the error contract applied to two compatible complex tensors
on the CPU (the result is the broadcast product, no error). -/
theorem C9_cdgmm_error_contract_witness :
    (torch_is_real (⟨.complex64, ⟨.cpu, 0⟩, [3], fun _ => (1:ℚ)⟩ :
        TorchTensor ℚ).dtype = true ∨
      torch_is_complex (⟨.complex64, ⟨.cpu, 0⟩, [3], fun _ => (1:ℚ)⟩ :
        TorchTensor ℚ).dtype = true) ∧
    torch_is_complex (⟨.complex64, ⟨.cpu, 0⟩, [2, 3], fun _ => (1:ℚ)⟩ :
      TorchTensor ℚ).dtype = true ∧
    cdgmm (⟨.complex64, ⟨.cpu, 0⟩, [2, 3], fun _ => (1:ℚ)⟩ : TorchTensor ℚ)
        (⟨.complex64, ⟨.cpu, 0⟩, [3], fun _ => (1:ℚ)⟩ : TorchTensor ℚ) =
      (if cdgmm_shape_ok [2, 3] [3] = false then
        .error (.runtimeError [2, 3] [3])
      else
        match cdgmm_device_error
            (⟨.complex64, ⟨.cpu, 0⟩, [2, 3], fun _ => (1:ℚ)⟩ : TorchTensor ℚ)
            (⟨.complex64, ⟨.cpu, 0⟩, [3], fun _ => (1:ℚ)⟩ : TorchTensor ℚ) with
        | some msg => .error (.typeError msg)
        | none => .ok (cdgmm_mul
            (⟨.complex64, ⟨.cpu, 0⟩, [2, 3], fun _ => (1:ℚ)⟩ : TorchTensor ℚ)
            (⟨.complex64, ⟨.cpu, 0⟩, [3], fun _ => (1:ℚ)⟩ : TorchTensor ℚ))) :=
  ⟨Or.inr rfl, rfl,
    C9_cdgmm_error_contract
      (⟨.complex64, ⟨.cpu, 0⟩, [2, 3], fun _ => (1:ℚ)⟩ : TorchTensor ℚ)
      (⟨.complex64, ⟨.cpu, 0⟩, [3], fun _ => (1:ℚ)⟩ : TorchTensor ℚ)
      (Or.inr rfl) rfl⟩

/-! ## `scattering_filter_factory` (`filter_bank.py`, lines 639-827).

Only the default `max_subsampling=None` branch is modelled (the only one the
cascade uses).  Each filter dict holding arrays under integer keys
`0..max_sub` is modelled as the list of its per-level arrays: level `0` is the
base Morlet/Gaussian, level `k ≥ 1` is
`periodize_filter_fourier(level0, nperiods=2**k)` (source lines 770-779 for
`psi2_f`, 800-806 for `phi_f`).  `max_sub_psi2` is the largest `j1 < j2`
(or `0`), `max_sub_phi = min(max(max(j1s), max(j2s)), floor(log2 T))`.  The
scalar `xi`/`sigma`/`j` metadata embedding (source lines 808-819) and
`t_max_phi` (lines 821-824) are not needed by any property proved here and
are omitted from the returned record. -/

def filterLevels {α : Type} [DivisionRing α] (base : List α) (max_sub : ℕ) :
    List (List α) :=
  (List.range (max_sub + 1)).map (fun k =>
    if k = 0 then base else periodize_filter_fourier base (2 ^ k))

def forM_collect {ε β : Type} (f : ℕ → Except ε β) : List ℕ → Except ε (List β)
  | [] => .ok []
  | i :: is => do
    let b ← f i
    let bs ← forM_collect f is
    .ok (b :: bs)

def max_sub_psi2 (j1s : List ℤ) (j2 : ℤ) : ℤ :=
  ((j1s.filter (fun j1 => decide (j2 > j1))).max?).getD 0

structure FactoryOut where
  phi_f : List (List ℝ)
  psi1_f : List (List (List ℝ))
  psi2_f : List (List (List ℝ))

noncomputable def factory_psi2 (N : ℕ) (normalize : String) (P_max : ℤ)
    (eps : ℝ) (j1s : List ℤ) (xi2 sigma2 : List ℝ) (j2s : List ℤ) :
    Except String (List (List (List ℝ))) :=
  forM_collect (fun n2 =>
    (morlet_1d N (xi2.getD n2 0) (sigma2.getD n2 0) normalize P_max eps).map
      (fun base => filterLevels base (max_sub_psi2 j1s (j2s.getD n2 0)).toNat))
    (List.range j2s.length)

noncomputable def factory_psi1 (N : ℕ) (normalize : String) (P_max : ℤ)
    (eps : ℝ) (xi1 sigma1 : List ℝ) (j1s : List ℤ) :
    Except String (List (List (List ℝ))) :=
  forM_collect (fun n1 =>
    (morlet_1d N (xi1.getD n1 0) (sigma1.getD n1 0) normalize P_max eps).map
      (fun base => [base])) (List.range j1s.length)

noncomputable def factory_from_calib (N : ℕ) (normalize : String) (P_max : ℤ)
    (eps T : ℝ)
    (calib : ℝ × (List ℝ × List ℝ × List ℤ) × (List ℝ × List ℝ × List ℤ)) :
    Except String FactoryOut :=
  match calib with
  | (sigma_low, (xi1, sigma1, j1s), (xi2, sigma2, j2s)) =>
    match factory_psi2 N normalize P_max eps j1s xi2 sigma2 j2s with
    | .error e => .error e
    | .ok psi2_f =>
      match factory_psi1 N normalize P_max eps xi1 sigma1 j1s with
      | .error e => .error e
      | .ok psi1_f =>
        match gauss_1d N sigma_low "l1" P_max eps with
        | .error e => .error e
        | .ok phi0 =>
          .ok { phi_f := filterLevels phi0
                  (min (max (pymax j1s) (pymax j2s)) ⌊Real.logb 2 T⌋).toNat
                psi1_f := psi1_f
                psi2_f := psi2_f }

noncomputable def scattering_filter_factory (J_support J_scattering : ℕ)
    (Q : ℤ ⊕ (ℤ × ℤ)) (T r_psi : ℝ) (normalize : String) (sigma0 alpha : ℝ)
    (P_max : ℤ) (eps : ℝ) : Except String FactoryOut :=
  match calibrate_scattering_filters J_scattering Q T r_psi sigma0 alpha
      (some (2 / ((2 ^ J_support : ℕ) : ℝ))) with
  | .error e => .error e
  | .ok calib =>
      factory_from_calib (2 ^ J_support) normalize P_max eps T calib

/-- The relation claimed by C2 for one filter dict: every stored level `k ≥ 1`
has length `N / 2^k` (with `N` the level-0 length) and its entry `m` is the
sum over `i < 2^k` of the level-0 array at `i * (N / 2^k) + m`. -/
def levels_sum_periodized {α : Type} [DivisionRing α] (lv : List (List α)) :
    Prop :=
  ∀ k1 : Fin (lv.length - 1),
    (lv.getD (k1.val + 1) []).length =
      (lv.getD 0 []).length / 2 ^ (k1.val + 1) ∧
    ∀ m : Fin ((lv.getD (k1.val + 1) []).length),
      (lv.getD (k1.val + 1) []).getD m 0 =
        ∑ i ∈ Finset.range (2 ^ (k1.val + 1)),
          (lv.getD 0 []).getD
            (i * ((lv.getD 0 []).length / 2 ^ (k1.val + 1)) + m.val) 0

def ExceptForall {ε β : Type} (e : Except ε β) (P : β → Prop) : Prop :=
  match e with
  | .error _ => True
  | .ok b => P b

theorem filterLevels_length {α : Type} [DivisionRing α] (base : List α)
    (max_sub : ℕ) : (filterLevels base max_sub).length = max_sub + 1 := by
  simp [filterLevels]

theorem filterLevels_getD_zero {α : Type} [DivisionRing α] (base : List α)
    (max_sub : ℕ) : (filterLevels base max_sub).getD 0 [] = base := by
  rw [filterLevels, getD_map_range _ _ (by omega)]
  rfl

theorem filterLevels_getD_succ {α : Type} [DivisionRing α] (base : List α)
    (max_sub k : ℕ) (h : k + 1 < max_sub + 1) :
    (filterLevels base max_sub).getD (k + 1) [] =
      periodize_filter_fourier base (2 ^ (k + 1)) := by
  rw [filterLevels, getD_map_range _ _ h]
  rfl

theorem filterLevels_sum_periodized {α : Type} [DivisionRing α] (base : List α)
    (max_sub : ℕ) : levels_sum_periodized (filterLevels base max_sub) := by
  intro k1
  have hlen := filterLevels_length base max_sub
  have hk : k1.val + 1 < max_sub + 1 := by
    have h1 := k1.isLt
    omega
  rw [filterLevels_getD_succ base max_sub k1.val hk, filterLevels_getD_zero]
  refine ⟨periodize_length base (2 ^ (k1.val + 1)) .sum, ?_⟩
  intro m
  have hm : m.val < base.length / 2 ^ (k1.val + 1) := by
    have h2 := m.isLt
    have h3 := periodize_length base (2 ^ (k1.val + 1)) Aggregation.sum
    omega
  exact periodize_getD_sum base (2 ^ (k1.val + 1)) m.val hm

theorem except_map_ok {ε β γ : Type} (g : β → γ) (e : Except ε β) (y : γ)
    (h : e.map g = .ok y) : ∃ b, e = .ok b ∧ y = g b := by
  cases e with
  | error err => simp [Except.map] at h
  | ok b =>
    refine ⟨b, rfl, ?_⟩
    simp [Except.map] at h
    exact h.symm

theorem forM_collect_ok {ε β : Type} (f : ℕ → Except ε β) (l : List ℕ)
    (ys : List β) (h : forM_collect f l = .ok ys) :
    ys.length = l.length ∧
    ∀ i : Fin ys.length, f (l.getD i.val 0) = .ok (ys.get i) := by
  induction l generalizing ys with
  | nil =>
    rw [forM_collect] at h
    have : ys = [] := by
      cases ys with
      | nil => rfl
      | cons a as => simp at h
    subst this
    exact ⟨rfl, fun i => absurd i.isLt (by simp)⟩
  | cons i is ih =>
    rw [forM_collect] at h
    cases hfi : f i with
    | error e =>
      rw [hfi] at h
      simp [Bind.bind, Except.bind] at h
    | ok b =>
      rw [hfi] at h
      cases hrest : forM_collect f is with
      | error e =>
        rw [hrest] at h
        simp [Bind.bind, Except.bind] at h
      | ok bs =>
        rw [hrest] at h
        simp [Bind.bind, Except.bind] at h
        obtain ⟨hl, hget⟩ := ih bs hrest
        subst h
        refine ⟨by simp [hl], ?_⟩
        intro idx
        match idx with
        | ⟨0, h0⟩ => simpa using hfi
        | ⟨j + 1, hj⟩ =>
          have hj2 : j < bs.length := by simpa using hj
          simpa using hget ⟨j, hj2⟩

theorem factory_from_calib_levels (N : ℕ) (nrm : String) (P_max : ℤ)
    (eps T : ℝ)
    (calib : ℝ × (List ℝ × List ℝ × List ℤ) × (List ℝ × List ℝ × List ℤ)) :
    ExceptForall (factory_from_calib N nrm P_max eps T calib) (fun out =>
      (∀ n2 : Fin out.psi2_f.length,
        levels_sum_periodized (out.psi2_f.get n2)) ∧
      levels_sum_periodized out.phi_f) := by
  obtain ⟨sigma_low, ⟨xi1, sigma1, j1s⟩, ⟨xi2, sigma2, j2s⟩⟩ := calib
  simp only [factory_from_calib]
  cases hpsi2 : factory_psi2 N nrm P_max eps j1s xi2 sigma2 j2s with
  | error e => exact trivial
  | ok psi2_f =>
    cases hpsi1 : factory_psi1 N nrm P_max eps xi1 sigma1 j1s with
    | error e => exact trivial
    | ok psi1_f =>
      cases hphi : gauss_1d N sigma_low "l1" P_max eps with
      | error e => exact trivial
      | ok phi0 =>
        refine ⟨?_, filterLevels_sum_periodized phi0 _⟩
        intro n2
        rw [factory_psi2] at hpsi2
        obtain ⟨hlen, hget⟩ := forM_collect_ok _ _ _ hpsi2
        obtain ⟨b, hb, hy⟩ := except_map_ok _ _ _ (hget n2)
        exact hy ▸ filterLevels_sum_periodized b _

/-- C2: every filter built by `scattering_filter_factory` satisfies the
sum-periodization invariant at every stored subsampling level `k ≥ 1`: the
level-`k` array has length `N / 2^k` (`N` the level-0 length) and its entry
`m` equals the sum over `i < 2^k` of the level-0 array at `i * (N/2^k) + m` —
for every second-order bandpass `psi2_f[n2][k]` and for the low-pass
`phi_f[k]`. -/
theorem C2_factory_levels_sum_periodization (J_support J_scattering : ℕ)
    (Q : ℤ ⊕ (ℤ × ℤ)) (T r_psi : ℝ) (normalize : String) (sigma0 alpha : ℝ)
    (P_max : ℤ) (eps : ℝ) :
    ExceptForall (scattering_filter_factory J_support J_scattering Q T r_psi
        normalize sigma0 alpha P_max eps) (fun out =>
      (∀ n2 : Fin out.psi2_f.length,
        levels_sum_periodized (out.psi2_f.get n2)) ∧
      levels_sum_periodized out.phi_f) := by
  simp only [scattering_filter_factory]
  cases hcal : calibrate_scattering_filters J_scattering Q T r_psi sigma0 alpha
      (some (2 / ((2 ^ J_support : ℕ) : ℝ))) with
  | error e => exact trivial
  | ok calib => exact factory_from_calib_levels _ _ _ _ _ calib
